import Mathlib

/-!
Shallow embedding of `src/bokehgraph/bokehgraph.py` (class `BokehGraph`).

Graphs are finite: a list of nodes (opaque identifiers modelled as naturals,
each with an attribute mapping) and a list of edges (endpoint pair plus an
attribute mapping), mirroring the networkx graph object the class consumes.
Attribute values are numeric, string or boolean, modelled by `Cell`
(extended with the pair/identifier cells that appear in the assembled
column tables).  Fallible Python code (KeyError, ValueError,
ZeroDivisionError) is embedded as `Except PyErr`.

External collaborators (the networkx spring/bipartite position solvers and
the colormap object `BokehGraphColorMap` from the sibling module, whose
source is not part of this file's subject) are passed in as a `Solvers`
record of opaque functions; every branch, table construction step and
colour-resolution decision of `bokehgraph.py` itself is translated
faithfully below.
-/

namespace Bokeh

/-- A value stored in an attribute mapping or a column table: numeric,
string or boolean attribute values, plus the `[from, to]` coordinate pairs
of edge polylines and raw node identifiers used in identity columns. -/
inductive Cell where
  | num  (q : ℚ)
  | str  (s : String)
  | bool (b : Bool)
  | pair (a b : ℚ)
  | id   (n : ℕ)
deriving DecidableEq

/-- A Python attribute dict: association list from key to value. -/
abbrev Attrs := List (String × Cell)

/-- A graph node: identifier plus attribute mapping. -/
structure GNode where
  id : ℕ
  attrs : Attrs
deriving DecidableEq

/-- A graph edge: two endpoints plus attribute mapping. -/
structure GEdge where
  u : ℕ
  v : ℕ
  attrs : Attrs
deriving DecidableEq

/-- The networkx graph handed to `BokehGraph.__init__`: nodes in insertion
order and edges in iteration order. -/
structure Graph where
  nodes : List GNode
  edges : List GEdge
deriving DecidableEq

/-- The Python exceptions the embedded code can raise. -/
inductive PyErr where
  | keyError
  | valueError
  | zeroDivision
deriving DecidableEq

/-- `d[k]` on an attribute dict, `none` standing for a raised KeyError. -/
def attrLookup (a : Attrs) (k : String) : Option Cell :=
  a.lookup k

/-- The identifiers of a graph's nodes, in insertion order. -/
def nodeIds (g : Graph) : List ℕ :=
  g.nodes.map GNode.id

/-- Embeds `nx.number_of_edges`. -/
def numberOfEdges (g : Graph) : ℕ :=
  g.edges.length

/-- All assignments of a boolean colour to each listed node (the search
space backing the executable two-colourability test). -/
def assignments : List ℕ → List (List (ℕ × Bool))
  | [] => [[]]
  | n :: ns => (assignments ns).flatMap fun c => [(n, false) :: c, (n, true) :: c]

/-- One edge is properly coloured by the assignment. -/
def edgeOk (c : List (ℕ × Bool)) (e : GEdge) : Bool :=
  match c.lookup e.u, c.lookup e.v with
  | some a, some b => a != b
  | _, _ => false

/-- Embeds `nx.is_bipartite`: the graph admits a proper two-colouring. -/
def twoColorable (g : Graph) : Bool :=
  (assignments (nodeIds g)).any fun c => g.edges.all (edgeOk c)

/-- The specification-side statement of two-colourability: some boolean
colouring separates the endpoints of every edge. -/
def TwoColorableP (g : Graph) : Prop :=
  ∃ f : ℕ → Bool, ∀ e ∈ g.edges, f e.u ≠ f e.v

/-- Every edge's endpoints are nodes of the graph. -/
def EdgesWf (g : Graph) : Prop :=
  ∀ e ∈ g.edges, e.u ∈ nodeIds g ∧ e.v ∈ nodeIds g

instance (g : Graph) : Decidable (EdgesWf g) := by
  unfold EdgesWf; infer_instance

/-- Embeds the constructor classification
`if nx.is_bipartite(self.graph) and nx.number_of_edges(self.graph) > 0:
self.bipartite = 1 else: self.bipartite = 0`. -/
def bipartiteFlag (g : Graph) : ℕ :=
  if twoColorable g ∧ 0 < numberOfEdges g then 1 else 0

/-- Lexicographic comparison of character lists by Unicode code point,
the order Python `sorted` uses on strings. -/
def charsLe : List Char → List Char → Bool
  | [], _ => true
  | _ :: _, [] => false
  | a :: as, b :: bs =>
    if a.toNat < b.toNat then true
    else if b.toNat < a.toNat then false
    else charsLe as bs

/-- String comparison by code points. -/
def strLe (s t : String) : Bool :=
  charsLe s.data t.data

/-- Insert a string into a sorted list (helper for the embedded `sorted`). -/
def insertSorted (s : String) : List String → List String
  | [] => [s]
  | t :: ts => if strLe s t then s :: t :: ts else t :: insertSorted s ts

/-- Embeds Python `sorted` on a list of strings (insertion sort). -/
def sortStrings : List String → List String
  | [] => []
  | s :: ss => insertSorted s (sortStrings ss)

/-- The keys of an attribute dict. -/
def keysOf (a : Attrs) : List String :=
  a.map Prod.fst

/-- Embeds `sorted({attr for ... for attr in data})`: the sorted,
duplicate-free union of attribute keys over the given dicts. -/
def sortedAttrUnion (rows : List Attrs) : List String :=
  sortStrings ((rows.flatMap keysOf).dedup)

/-- The membership test `data["bipartite"] == s` (a missing key compares
as no match; the constructor only evaluates it on graphs that carry the
side attribute, an external precondition per the class docstring). -/
def sideIs (a : Attrs) (s : ℚ) : Bool :=
  match attrLookup a "bipartite" with
  | some (Cell.num q) => q == s
  | _ => false

/-- Embeds `self.node_attributes_lv0`: in the bipartite branch the sorted
key union over side-0 nodes, otherwise over all nodes. -/
def node_attributes_lv0 (g : Graph) : List String :=
  if bipartiteFlag g = 1 then
    sortedAttrUnion ((g.nodes.filter fun n => sideIs n.attrs 0).map GNode.attrs)
  else
    sortedAttrUnion (g.nodes.map GNode.attrs)

/-- Embeds `self.node_attributes_lv1` (bipartite branch only). -/
def node_attributes_lv1 (g : Graph) : List String :=
  sortedAttrUnion ((g.nodes.filter fun n => sideIs n.attrs 1).map GNode.attrs)

/-- Embeds `self.edge_attributes`. -/
def edge_attributes (g : Graph) : List String :=
  sortedAttrUnion (g.edges.map GEdge.attrs)

/-- Embeds the node tooltip construction: fixed pairs
`("type", "node"), ("node", "@_node")` followed by one `(attr, "@attr")`
pair per catalog attribute. -/
def node_tooltips (catalog : List String) : List (String × String) :=
  [("type", "node"), ("node", "@_node")] ++ catalog.map fun a => (a, "@" ++ a)

/-- Embeds the edge tooltip construction. -/
def edge_tooltips (catalog : List String) : List (String × String) :=
  [("type", "edge"), ("u", "@_u"), ("v", "@_v")] ++ catalog.map fun a => (a, "@" ++ a)

/-- A layout: Python dict from node identifier to an (x, y) pair, in
insertion order. -/
abbrev Layout := List (ℕ × ℚ × ℚ)

/-- The external collaborators of the class, passed in opaquely:
the networkx spring solver (given the graph and the `shrink_factor` from
which the class derives the solver's optimal-distance parameter
`k = 1 / sqrt(number_of_nodes() * shrink_factor)`; `iterations`, `scale`
and `seed` are forwarded unchanged and are folded into the opaque
function), the networkx bipartite solver (given the side-1 node list),
and `BokehGraphColorMap(palette, max_colors).map` from the sibling
colormap module (given palette, max_colors and the value column). -/
structure Solvers where
  spring : Graph → ℚ → Layout
  bipart : List ℕ → Layout
  cmap : String → Int → List Cell → List Cell

/-- Python truthiness of the `layout` argument (`not layout`): `None` and
the empty mapping are both falsy. -/
def truthyLayout : Option Layout → Bool
  | none => false
  | some [] => false
  | some (_ :: _) => true

/-- The generator `(node for node, data in self.graph.nodes(data=True) if
data["bipartite"] == 1)` consumed by the bipartite solver; a node without
the side attribute raises KeyError when the generator is drained. -/
def side_one_nodes : List GNode → Except PyErr (List ℕ)
  | [] => .ok []
  | n :: ns =>
    match attrLookup n.attrs "bipartite" with
    | none => .error .keyError
    | some c =>
      match side_one_nodes ns with
      | .error e => .error e
      | .ok rest => .ok (if c = Cell.num 1 then n.id :: rest else rest)

/-- The sign of `number_of_nodes() * shrink_factor` decides the fate of
`1 / sqrt(...)`: since a rational's denominator is positive, that sign
equals the sign of `length * shrink.num`, tested over ℤ. -/
def spring_pnum (g : Graph) (shrink : ℚ) : ℤ :=
  (g.nodes.length : ℤ) * shrink.num

/-- Embeds `BokehGraph.layout`.  A truthy explicit mapping is stored as
is; otherwise the bipartite branch calls the bipartite solver and the
general branch calls the spring solver with
`k = 1 / sqrt(number_of_nodes() * shrink_factor)` — `math.sqrt` raises
ValueError on a negative argument and the division raises
ZeroDivisionError when the square root is zero, which is exactly when the
product is zero. -/
def layout_fn (S : Solvers) (g : Graph) (layoutArg : Option Layout)
    (shrink : ℚ) : Except PyErr Layout :=
  if truthyLayout layoutArg then
    .ok (layoutArg.getD [])
  else if bipartiteFlag g = 1 then
    match side_one_nodes g.nodes with
    | .error e => .error e
    | .ok ones => .ok (S.bipart ones)
  else
    if spring_pnum g shrink < 0 then .error .valueError
    else if spring_pnum g shrink = 0 then .error .zeroDivision
    else .ok (S.spring g shrink)

/-- Embeds `gen_edge_coordinates`: per edge the `[x_from, x_to]` and
`[y_from, y_to]` pairs, looking both endpoints up in the layout
(KeyError when absent). -/
def gen_edge_coordinates (lay : Layout) : List GEdge → Except PyErr (List (ℚ × ℚ) × List (ℚ × ℚ))
  | [] => .ok ([], [])
  | e :: es =>
    match lay.lookup e.u, lay.lookup e.v with
    | some f, some t =>
      match gen_edge_coordinates lay es with
      | .error er => .error er
      | .ok (xs, ys) => .ok ((f.1, t.1) :: xs, (f.2, t.2) :: ys)
    | _, _ => .error .keyError

/-- One row of `gen_node_coordinates`' result. -/
structure NodeCoord where
  name : ℕ
  x : ℚ
  y : ℚ
deriving DecidableEq

/-- Embeds `gen_node_coordinates`:
`names, coords = zip(*self._layout.items())` raises ValueError on an
empty layout (the empty zip unpacks into no values), otherwise yields one
(name, x, y) record per layout entry in layout order. -/
def gen_node_coordinates (lay : Layout) : Except PyErr (List NodeCoord) :=
  match lay with
  | [] => .error .valueError
  | _ => .ok (lay.map fun p => ⟨p.1, p.2.1, p.2.2⟩)

/-- A column of an assembled table. -/
abbrev Column := List Cell

/-- An assembled properties table: Python dict from column name to
column, in insertion order. -/
abbrev Table := List (String × Column)

/-- The column names of a table. -/
def tableKeys (t : Table) : List String :=
  t.map Prod.fst

/-- `[data[attr] for ... in rows]`: one attribute value per row, KeyError
when a row lacks the key. -/
def lookup_column (attr : String) : List Attrs → Except PyErr Column
  | [] => .ok []
  | a :: rest =>
    match attrLookup a attr with
    | none => .error .keyError
    | some v =>
      match lookup_column attr rest with
      | .error e => .error e
      | .ok vs => .ok (v :: vs)

/-- The unconditional per-attribute column loop of `_render_edges`:
one column per catalog attribute. -/
def attr_columns (rows : List Attrs) : List String → Except PyErr Table
  | [] => .ok []
  | attr :: rest =>
    match lookup_column attr rows with
    | .error e => .error e
    | .ok col =>
      match attr_columns rows rest with
      | .error e => .error e
      | .ok t => .ok ((attr, col) :: t)

/-- `self.graph.nodes[n]`: the attribute dict of the (first) node with the
given identifier, KeyError when no such node exists. -/
def nodeAttrsOf (g : Graph) (n : ℕ) : Option Attrs :=
  (g.nodes.find? fun m => m.id == n).map GNode.attrs

/-- `[nodes[n][attr] for n in order]`. -/
def node_column (g : Graph) (attr : String) : List ℕ → Except PyErr Column
  | [] => .ok []
  | n :: ns =>
    match nodeAttrsOf g n with
    | none => .error .keyError
    | some a =>
      match attrLookup a attr with
      | none => .error .keyError
      | some v =>
        match node_column g attr ns with
        | .error e => .error e
        | .ok vs => .ok (v :: vs)

/-- The per-attribute node column loop of `_render_nodes`, including the
gate `if not self.hover_nodes and attr != node_color: continue`. -/
def node_attr_cols (g : Graph) (hover : Bool) (nodeColor : String)
    (ord : List ℕ) : List String → Except PyErr Table
  | [] => .ok []
  | attr :: rest =>
    if hover = false ∧ attr ≠ nodeColor then
      node_attr_cols g hover nodeColor ord rest
    else
      match node_column g attr ord with
      | .error e => .error e
      | .ok col =>
        match node_attr_cols g hover nodeColor ord rest with
        | .error e => .error e
        | .ok t => .ok ((attr, col) :: t)

/-- The colour-resolution step shared (in shape) by node and edge
rendering: if the requested colour names a catalog attribute, run the
colormap over that attribute's already-materialized column, store it
under the synthetic `_colormap` key and use `_colormap` as the colour
key; otherwise the requested value is a literal passed through. -/
def resolve_color (S : Solvers) (catalog : List String) (tbl : Table)
    (requested palette : String) (maxColors : Int) : Table × String :=
  if requested ∈ catalog then
    (tbl ++ [("_colormap", S.cmap palette maxColors ((tbl.lookup requested).getD []))],
     "_colormap")
  else
    (tbl, requested)

/-- The starting columns of the edge table: the `xs`/`ys` polyline
columns, then the `_u`/`_v` identity columns — added only when the graph
has edges, the `try`/`except ValueError: pass` around the empty zip
unpack. -/
def edge_base (g : Graph) (xs ys : List (ℚ × ℚ)) : Table :=
  let base : Table :=
    [("xs", xs.map fun p => Cell.pair p.1 p.2),
     ("ys", ys.map fun p => Cell.pair p.1 p.2)]
  if g.edges.isEmpty then base
  else base ++ [("_u", g.edges.map fun e => Cell.id e.u),
                ("_v", g.edges.map fun e => Cell.id e.v)]

/-- The edge alpha resolution step: when `edge_alpha` is a string naming
a catalog edge attribute, a `_edge_alpha` column is computed from the
already-assembled table with the fixed "numeric" palette and the alpha
argument becomes the string `_edge_alpha`; any other value is passed
through. -/
def edge_alpha_step (S : Solvers) (g : Graph) (tbl : Table)
    (colorKey : String) (edgeAlpha : Cell) (maxColors : Int) :
    Table × String × Cell :=
  match edgeAlpha with
  | Cell.str s =>
    if s ∈ edge_attributes g then
      (tbl ++ [("_edge_alpha", S.cmap "numeric" maxColors ((tbl.lookup s).getD []))],
       colorKey, Cell.str "_edge_alpha")
    else
      (tbl, colorKey, edgeAlpha)
  | _ => (tbl, colorKey, edgeAlpha)

/-- Embeds the table-building and colour/alpha-resolution part of
`_render_edges` (everything up to the `multi_line` call): the base
columns, one column per catalog edge attribute, then edge colour
resolution against `edge_color` and alpha resolution against
`edge_alpha`.  Returns the table, the resolved line-colour key and the
resolved alpha argument. -/
def render_edges (S : Solvers) (g : Graph) (lay : Layout)
    (edgeColor edgePalette : String) (edgeAlpha : Cell) (maxColors : Int) :
    Except PyErr (Table × String × Cell) :=
  match gen_edge_coordinates lay g.edges with
  | .error e => .error e
  | .ok (xs, ys) =>
    match attr_columns (g.edges.map GEdge.attrs) (edge_attributes g) with
    | .error e => .error e
    | .ok cols =>
      let (tbl, colorKey) :=
        resolve_color S (edge_attributes g) (edge_base g xs ys ++ cols)
          edgeColor edgePalette maxColors
      .ok (edge_alpha_step S g tbl colorKey edgeAlpha maxColors)

/-- `_render_edges` including the figure step gated on `hover_edges`:
the flag only decides whether a hover tool is attached, the table and the
resolved keys do not depend on it. -/
structure EdgeFigure where
  table : Table
  colorKey : String
  alphaKey : Cell
  hoverAttached : Bool
deriving DecidableEq

/-- `_render_edges` with the `hover_edges`-gated hover-tool attachment. -/
def render_edges_fig (S : Solvers) (g : Graph) (lay : Layout)
    (edgeColor edgePalette : String) (edgeAlpha : Cell) (maxColors : Int)
    (hoverEdges : Bool) : Except PyErr EdgeFigure :=
  match render_edges S g lay edgeColor edgePalette edgeAlpha maxColors with
  | .error e => .error e
  | .ok (t, c, a) => .ok ⟨t, c, a, hoverEdges⟩

/-- The base columns of one bipartite node partition table:
`dict(xs=[], ys=[], names=[])` filled by the partition loop. -/
def bip_base (cs : List NodeCoord) : Table :=
  [("xs", cs.map fun c => Cell.num c.x),
   ("ys", cs.map fun c => Cell.num c.y),
   ("names", cs.map fun c => Cell.id c.name)]

/-- The single non-bipartite node table base:
`dict(xs=xs, ys=ys, _node=[node.name ...])`. -/
def nonbip_base (cs : List NodeCoord) : Table :=
  [("xs", cs.map fun c => Cell.num c.x),
   ("ys", cs.map fun c => Cell.num c.y),
   ("_node", cs.map fun c => Cell.id c.name)]

/-- The outcome of `_render_nodes`: the assembled side-0 table, the
side-1 table in the bipartite branch, and the colour key each scatter
glyph is drawn with (the code passes one `color` variable as both
`fill_color` and `line_color` of both scatter calls, so a single key per
glyph captures it). -/
structure NodeRender where
  tableLv0 : Table
  tableLv1 : Option Table
  glyphColorLv0 : String
  glyphColorLv1 : Option String
deriving DecidableEq

/-- Embeds `_render_nodes`.  `lv0set`/`lv1set` are the two node sets
returned by the external `nx.bipartite.sets` call, modelled as lists:
membership (`node.name in nodes_lv0`) ignores their order, but the
attribute materialization loops (`for n in nodes_lv0`) iterate them in
the unspecified set order the call happens to produce.  In the bipartite
branch the coordinate columns are filled in `self._nodes` (layout) order
while attribute columns follow the set order; the one `color` variable
is resolved for side 0 and then re-resolved (overwritten) for side 1
before either scatter call reads it, exactly as in the source. -/
def render_nodes (S : Solvers) (g : Graph) (coords : List NodeCoord)
    (lv0set lv1set : List ℕ) (nodeColor nodePalette : String)
    (maxColors : Int) (hoverNodes : Bool) : Except PyErr NodeRender :=
  if bipartiteFlag g = 1 then
    let c0 := coords.filter fun c => c.name ∈ lv0set
    let c1 := coords.filter fun c => c.name ∉ lv0set
    match node_attr_cols g hoverNodes nodeColor lv0set (node_attributes_lv0 g) with
    | .error e => .error e
    | .ok cols0 =>
      match node_attr_cols g hoverNodes nodeColor lv1set (node_attributes_lv1 g) with
      | .error e => .error e
      | .ok cols1 =>
        let (t0, _) :=
          resolve_color S (node_attributes_lv0 g) (bip_base c0 ++ cols0)
            nodeColor nodePalette maxColors
        let (t1, color) :=
          resolve_color S (node_attributes_lv1 g) (bip_base c1 ++ cols1)
            nodeColor nodePalette maxColors
        .ok ⟨t0, some t1, color, some color⟩
  else
    match node_attr_cols g hoverNodes nodeColor (coords.map NodeCoord.name)
        (node_attributes_lv0 g) with
    | .error e => .error e
    | .ok cols0 =>
      let (t0, color) :=
        resolve_color S (node_attributes_lv0 g) (nonbip_base coords ++ cols0)
          nodeColor nodePalette maxColors
      .ok ⟨t0, none, color, none⟩

/-- The result of one `draw` call on a fresh instance. -/
structure DrawResult where
  edgeTable : Table
  edgeColorKey : String
  edgeAlphaKey : Cell
  nodes : NodeRender
deriving DecidableEq

/-- Embeds `draw` → `render` on a freshly constructed instance (no cached
layout, so `gen_edge_coordinates` triggers `self.layout()` with its
default `shrink_factor=0.8` first): edges are rendered, then node
coordinates are generated and nodes rendered. -/
def draw_fn (S : Solvers) (g : Graph) (lv0set lv1set : List ℕ)
    (nodeColor nodePalette : String) (edgeColor edgePalette : String)
    (edgeAlpha : Cell) (maxColors : Int) (hoverNodes : Bool) :
    Except PyErr DrawResult :=
  match layout_fn S g none (mkRat 4 5) with
  | .error e => .error e
  | .ok lay =>
    match render_edges S g lay edgeColor edgePalette edgeAlpha maxColors with
    | .error e => .error e
    | .ok (et, eck, eak) =>
      match gen_node_coordinates lay with
      | .error e => .error e
      | .ok coords =>
        match render_nodes S g coords lv0set lv1set nodeColor nodePalette
            maxColors hoverNodes with
        | .error e => .error e
        | .ok nr => .ok ⟨et, eck, eak, nr⟩

/-- `draw` with its Python default arguments (`node_color="firebrick"`,
`node_palette="Category20"`, `edge_color="navy"`, `edge_palette="viridis"`,
`edge_alpha=0.3`, `max_colors=-1`) on an instance constructed with the
default `hover_nodes=True`. -/
def draw_default (S : Solvers) (g : Graph) (lv0set lv1set : List ℕ) :
    Except PyErr DrawResult :=
  draw_fn S g lv0set lv1set "firebrick" "Category20" "navy" "viridis"
    (Cell.num (mkRat 3 10)) (-1) true

/-- Checks positional alignment of one attribute column of a node table
against the graph: the value in row i must be the attribute value of the
node whose identity occupies row i of the `names` column. -/
def columnAligned (g : Graph) (t : Table) (attr : String) : Bool :=
  match t.lookup "names", t.lookup attr with
  | some names, some vals =>
    names.length == vals.length &&
    (List.zip names vals).all fun p =>
      match p.1 with
      | Cell.id n =>
        match nodeAttrsOf g n with
        | some a => decide (attrLookup a attr = some p.2)
        | none => false
      | _ => false
  | _, _ => false

/-- Projects a successful `_render_nodes` result. -/
def okRender : Except PyErr NodeRender → Option NodeRender
  | .ok r => some r
  | .error _ => none

/-- The side-0 glyph colour key of a successful render. -/
def getGlyph0 (x : Except PyErr NodeRender) : Option String :=
  (okRender x).map NodeRender.glyphColorLv0

/-- The side-0 table keys of a successful render. -/
def getKeys0 (x : Except PyErr NodeRender) : Option (List String) :=
  (okRender x).map fun r => tableKeys r.tableLv0

/-- The side-0 table of a successful render. -/
def getTable0 (x : Except PyErr NodeRender) : Option Table :=
  (okRender x).map NodeRender.tableLv0

/-- A concrete instantiation of the external collaborators, used to
evaluate the embedded pipeline on concrete inputs: the spring solver
places node i at (i, 0), the bipartite solver places the listed nodes in
a column, and the colormap sends every value to a fixed colour string. -/
def S0 : Solvers where
  spring := fun g _ => g.nodes.map fun n => (n.id, (n.id : ℚ), 0)
  bipart := fun ns => ns.map fun n => (n, 0, (n : ℚ))
  cmap := fun _ _ vs => vs.map fun _ => Cell.str "#0000ff"

/-- `s0`, `s1` form a legitimate result of the external
`nx.bipartite.sets` call on `g`: together they enumerate the node set and
every edge runs between the two sides. -/
def validSets (g : Graph) (s0 s1 : List ℕ) : Bool :=
  (s0 ++ s1).isPerm (nodeIds g) &&
  g.edges.all fun e =>
    (s0.contains e.u && s1.contains e.v) || (s1.contains e.u && s0.contains e.v)

/-- Claim fixture: a bipartite graph whose side-0 node carries an
attribute named "color" that the side-1 node lacks. -/
def gC1 : Graph :=
  ⟨[⟨0, [("bipartite", .num 0), ("color", .str "x")]⟩,
    ⟨1, [("bipartite", .num 1)]⟩],
   [⟨0, 1, []⟩]⟩

/-- Node coordinates for `gC1` in layout (insertion) order. -/
def coordsC1 : List NodeCoord := [⟨0, 0, 0⟩, ⟨1, 1, 0⟩]

/-- Claim fixture: a bipartite graph whose two side-0 nodes were inserted
in the order 1, 0 (so the layout iterates them as 1, 0) while a set over
them may well iterate as 0, 1. -/
def gC2 : Graph :=
  ⟨[⟨1, [("a", .num 10), ("bipartite", .num 0)]⟩,
    ⟨0, [("a", .num 20), ("bipartite", .num 0)]⟩,
    ⟨2, [("a", .num 5), ("bipartite", .num 1)]⟩],
   [⟨1, 2, []⟩, ⟨0, 2, []⟩]⟩

/-- Node coordinates for `gC2` in layout (insertion) order. -/
def coordsC2 : List NodeCoord := [⟨1, 1, 0⟩, ⟨0, 2, 0⟩, ⟨2, 3, 0⟩]

/-- Claim fixture: a heterogeneous graph — attribute "a" present on node
0 but absent on node 1. -/
def gC3 : Graph := ⟨[⟨0, [("a", .num 1)]⟩, ⟨1, []⟩], []⟩

/-- Node coordinates for `gC3`. -/
def coordsC3 : List NodeCoord := [⟨0, 0, 0⟩, ⟨1, 1, 0⟩]

/-- Claim fixture: edge attribute "w" present on one edge, absent on the
other. -/
def gC3e : Graph :=
  ⟨[⟨0, []⟩, ⟨1, []⟩, ⟨2, []⟩], [⟨0, 1, [("w", .num 1)]⟩, ⟨1, 2, []⟩]⟩

/-- A layout for `gC3e`. -/
def layC3e : Layout := [(0, 0, 0), (1, 1, 0), (2, 2, 0)]

/-- The zero-node, zero-edge graph. -/
def gEmpty : Graph := ⟨[], []⟩

/-- Claim fixture: zero edges, two nodes, heterogeneous node attributes. -/
def gC7x : Graph := ⟨[⟨0, [("a", .num 1)]⟩, ⟨1, []⟩], []⟩

/-- A single attribute-free node, no edges. -/
def gOne : Graph := ⟨[⟨0, []⟩], []⟩

/-- A two-node path: one edge, no attributes. -/
def gP2 : Graph := ⟨[⟨0, []⟩, ⟨1, []⟩], [⟨0, 1, []⟩]⟩

/-- A homogeneous non-bipartite graph: attribute "a" on every node, no
edges. -/
def gHom : Graph := ⟨[⟨0, [("a", .num 1)]⟩, ⟨1, [("a", .num 2)]⟩], []⟩

/-- The node render of `gHom` with `node_color = "a"` (an attribute). -/
def rC6a : NodeRender :=
  match render_nodes S0 gHom coordsC3 [] [] "a" "Category20" (-1) false with
  | .ok r => r
  | .error _ => ⟨[], none, "", none⟩

/-- The node render of `gHom` with `node_color = "teal"` (a literal). -/
def rC6b : NodeRender :=
  match render_nodes S0 gHom coordsC3 [] [] "teal" "Category20" (-1) false with
  | .ok r => r
  | .error _ => ⟨[], none, "", none⟩

/-- The node render of the bipartite fixture `gC2` with hover enabled
and the default literal node colour. -/
def rC9 : NodeRender :=
  match render_nodes S0 gC2 coordsC2 [0, 1] [2] "firebrick" "Category20" (-1) true with
  | .ok r => r
  | .error _ => ⟨[], none, "", none⟩

/-- The side-1 table of `rC9`. -/
def tC9 : Table := rC9.tableLv1.getD []

/-- A non-bipartite (triangle) graph with an edge attribute "w" on every
edge and a node attribute "a" on every node, for exercising the hover
gates. -/
def gC10 : Graph :=
  ⟨[⟨0, [("a", .num 1)]⟩, ⟨1, [("a", .num 2)]⟩, ⟨2, [("a", .num 3)]⟩],
   [⟨0, 1, [("w", .num 7)]⟩, ⟨1, 2, [("w", .num 8)]⟩, ⟨0, 2, [("w", .num 9)]⟩]⟩

/-- A layout for `gC10`. -/
def layC10 : Layout := [(0, 0, 0), (1, 1, 0), (2, 0, 1)]

/-- Node coordinates for `gC10` in layout order. -/
def coordsC10 : List NodeCoord := [⟨0, 0, 0⟩, ⟨1, 1, 0⟩, ⟨2, 0, 1⟩]

/-- The edge table of `gC10` (with an unmatched literal edge colour). -/
def tC10 : Table :=
  match render_edges S0 gC10 layC10 "navy" "viridis" (Cell.num (mkRat 3 10)) (-1) with
  | .ok (t, _, _) => t
  | .error _ => []

/-- The node render of `gC10` with hover disabled and a literal colour. -/
def rC10f : NodeRender :=
  match render_nodes S0 gC10 coordsC10 [] [] "firebrick" "Category20" (-1) false with
  | .ok r => r
  | .error _ => ⟨[], none, "", none⟩

/-- The node render of `gC10` with hover enabled and a literal colour. -/
def rC10t : NodeRender :=
  match render_nodes S0 gC10 coordsC10 [] [] "firebrick" "Category20" (-1) true with
  | .ok r => r
  | .error _ => ⟨[], none, "", none⟩

/-- **C1** (code bug).  On the bipartite fixture `gC1`, `node_color =
"color"` is in the side-0 catalog and not in the side-1 catalog; the
side-0 table does receive a `_colormap` column, yet the side-0 glyph is
drawn with colour key `"color"`, not `"_colormap"`: the shared `color`
variable is re-resolved by the side-1 partition (to the literal, since
"color" is not a side-1 attribute) before either scatter call reads it,
so the side-1 resolution does overwrite the side-0 colour keying. -/
theorem c1_side0_glyph_color_overwritten :
    bipartiteFlag gC1 = 1 ∧
    "color" ∈ node_attributes_lv0 gC1 ∧
    "color" ∉ node_attributes_lv1 gC1 ∧
    validSets gC1 [0] [1] = true ∧
    getKeys0 (render_nodes S0 gC1 coordsC1 [0] [1] "color" "Category20" (-1) true) =
      some ["xs", "ys", "names", "bipartite", "color", "_colormap"] ∧
    getGlyph0 (render_nodes S0 gC1 coordsC1 [0] [1] "color" "Category20" (-1) true) =
      some "color" :=
  ⟨rfl, by decide, by decide, by decide, rfl, rfl⟩

/-- **C2** (code bug).  On the bipartite fixture `gC2` the side-0
coordinate rows follow the layout order 1, 0 while the attribute column
for "a" follows the set iteration order 0, 1 — a legitimate iteration
order of the side-0 set, which Python leaves unspecified — so row 0
pairs node 1's coordinates with node 0's attribute value: the assembled
side-0 partition table is positionally misaligned. -/
theorem c2_bipartite_attr_column_misaligned :
    bipartiteFlag gC2 = 1 ∧
    "a" ∈ node_attributes_lv0 gC2 ∧
    validSets gC2 [0, 1] [2] = true ∧
    (getTable0 (render_nodes S0 gC2 coordsC2 [0, 1] [2] "firebrick" "Category20" (-1) true)).map
      (fun t => columnAligned gC2 t "a") = some false :=
  ⟨rfl, by decide, by decide, rfl⟩

/-- **C3** (code bug).  Attribute lookups during table assembly use plain
subscription, so a catalog key absent on one row raises KeyError instead
of yielding a "not present" sentinel: building the node table of `gC3`
(key "a" missing on node 1) and the edge table of `gC3e` (key "w"
missing on the second edge) both fail. -/
theorem c3_absent_key_raises :
    "a" ∈ node_attributes_lv0 gC3 ∧
    render_nodes S0 gC3 coordsC3 [] [] "firebrick" "Category20" (-1) true =
      .error .keyError ∧
    "w" ∈ edge_attributes gC3e ∧
    render_edges S0 gC3e layC3e "navy" "viridis" (Cell.num (mkRat 3 10)) (-1) =
      .error .keyError :=
  ⟨by decide, rfl, by decide, rfl⟩

/-- **C4** (code bug).  On the zero-node graph nothing short-circuits:
the spring-layout optimal-distance computation divides by
`sqrt(0 * shrink_factor) = 0` (ZeroDivisionError), the node coordinate
construction fails to unpack the empty layout (ValueError), and `draw`
with default options raises instead of producing empty columns. -/
theorem c4_zero_node_graph_raises :
    gEmpty.nodes = [] ∧
    layout_fn S0 gEmpty none (mkRat 4 5) = .error .zeroDivision ∧
    gen_node_coordinates ([] : Layout) = .error .valueError ∧
    draw_default S0 gEmpty [] [] = .error .zeroDivision :=
  ⟨rfl, rfl, rfl, rfl⟩

/-- **C8** (counterexample).  An explicit empty layout mapping is not
stored as the layout: `not layout` is true for the empty dict, so the
code computes a layout instead — on the zero-node graph this raises
ZeroDivisionError, and on a one-node graph it returns the spring
solver's output rather than the supplied empty mapping. -/
theorem c8_empty_mapping_not_passthrough :
    layout_fn S0 gEmpty (some []) (mkRat 4 5) = .error .zeroDivision ∧
    (layout_fn S0 gOne (some []) (mkRat 4 5)).toOption = some [(0, 0, 0)] ∧
    (layout_fn S0 gOne (some []) (mkRat 4 5)).toOption ≠ some ([] : Layout) := by
  refine ⟨rfl, rfl, fun h => ?_⟩
  have h2 := (show (layout_fn S0 gOne (some []) (mkRat 4 5)).toOption
      = some [((0 : ℕ), (0 : ℚ), (0 : ℚ))] from rfl).symm.trans h
  exact List.noConfusion (Option.some.inj h2)

/-- **C8** (amended).  Every non-empty caller-supplied explicit layout
mapping is stored as the layout itself, without invoking any solver. -/
theorem c8_nonempty_mapping_passthrough (S : Solvers) (g : Graph)
    (m : Layout) (hm : m ≠ []) (shrink : ℚ) :
    layout_fn S g (some m) shrink = .ok m := by
  cases m with
  | nil => exact absurd rfl hm
  | cons a l => rfl

/-- Witness for `c8_nonempty_mapping_passthrough` at a concrete graph and
mapping. -/
theorem c8_nonempty_mapping_passthrough_witness :
    layout_fn S0 gOne (some [(5, 1, 2)]) (mkRat 4 5) = .ok [(5, 1, 2)] :=
  c8_nonempty_mapping_passthrough S0 gOne [(5, 1, 2)] (by decide) (mkRat 4 5)

/-- Any total boolean colouring is realized by some assignment in the
finite search space, as far as the listed nodes are concerned. -/
theorem assignments_complete (f : ℕ → Bool) :
    ∀ ns : List ℕ, ∃ c ∈ assignments ns, ∀ n ∈ ns, c.lookup n = some (f n) := by
  intro ns
  induction ns with
  | nil => exact ⟨[], by simp [assignments], by simp⟩
  | cons m ms ih =>
    obtain ⟨c, hc, hl⟩ := ih
    refine ⟨(m, f m) :: c, ?_, ?_⟩
    · simp only [assignments, List.mem_flatMap]
      refine ⟨c, hc, ?_⟩
      cases h : f m <;> simp [h]
    · intro n hn
      by_cases hnm : n = m
      · subst hnm
        simp [List.lookup]
      · have hbe : (n == m) = false := by simp [hnm]
        simp only [List.lookup, hbe]
        exact hl n (by
          rcases List.mem_cons.mp hn with h | h
          · exact absurd h hnm
          · exact h)

/-- A successful exhaustive search yields a proper two-colouring. -/
theorem twoColorable_sound (g : Graph) (h : twoColorable g = true) :
    TwoColorableP g := by
  unfold twoColorable at h
  rw [List.any_eq_true] at h
  obtain ⟨c, -, hall⟩ := h
  rw [List.all_eq_true] at hall
  refine ⟨fun n => (c.lookup n).getD false, ?_⟩
  intro e he
  have h1 := hall e he
  unfold edgeOk at h1
  cases hu : c.lookup e.u with
  | none => rw [hu] at h1; cases c.lookup e.v <;> simp at h1
  | some a =>
    cases hv : c.lookup e.v with
    | none => rw [hu, hv] at h1; simp at h1
    | some b =>
      rw [hu, hv] at h1
      simp only [hu, hv, Option.getD_some]
      exact bne_iff_ne.mp h1

/-- On a graph whose edges only touch listed nodes, a proper
two-colouring is found by the exhaustive search. -/
theorem twoColorable_complete (g : Graph) (hwf : EdgesWf g)
    (h : TwoColorableP g) : twoColorable g = true := by
  obtain ⟨f, hf⟩ := h
  obtain ⟨c, hc, hl⟩ := assignments_complete f (nodeIds g)
  unfold twoColorable
  rw [List.any_eq_true]
  refine ⟨c, hc, ?_⟩
  rw [List.all_eq_true]
  intro e he
  obtain ⟨hu, hv⟩ := hwf e he
  unfold edgeOk
  rw [hl e.u hu, hl e.v hv]
  exact bne_iff_ne.mpr (hf e he)

/-- **C5.**  For every graph (whose edges join actual nodes), the
constructor's bipartite flag is 1 exactly when the graph admits a proper
two-colouring and has at least one edge; with zero edges the flag is 0
whatever the node count. -/
theorem c5_bipartite_flag_iff (g : Graph) (hwf : EdgesWf g) :
    (bipartiteFlag g = 1 ↔ (TwoColorableP g ∧ 0 < numberOfEdges g)) ∧
    (numberOfEdges g = 0 → bipartiteFlag g = 0) := by
  constructor
  · unfold bipartiteFlag
    split
    · next hcond =>
      simp only [true_iff]
      exact ⟨twoColorable_sound g hcond.1, hcond.2⟩
    · next hcond =>
      constructor
      · intro h01
        exact absurd h01 (by decide)
      · rintro ⟨htc, hne⟩
        exact absurd ⟨twoColorable_complete g hwf htc, hne⟩ hcond
  · intro h0
    unfold bipartiteFlag
    rw [if_neg]
    rintro ⟨-, hpos⟩
    rw [h0] at hpos
    exact Nat.lt_irrefl 0 hpos

/-- Witness for `c5_bipartite_flag_iff` on the two-node path graph. -/
theorem c5_bipartite_flag_iff_witness :
    (bipartiteFlag gP2 = 1 ↔ (TwoColorableP gP2 ∧ 0 < numberOfEdges gP2)) ∧
    (numberOfEdges gP2 = 0 → bipartiteFlag gP2 = 0) :=
  c5_bipartite_flag_iff gP2 (by decide)

/-- The edge attribute loop materializes exactly the catalog keys, in
catalog order. -/
theorem attr_columns_keys (rows : List Attrs) :
    ∀ cat t, attr_columns rows cat = .ok t → tableKeys t = cat := by
  intro cat
  induction cat with
  | nil =>
    intro t h
    unfold attr_columns at h
    simp only [Except.ok.injEq] at h
    rw [← h]
    rfl
  | cons a rest ih =>
    intro t h
    unfold attr_columns at h
    cases hl : lookup_column a rows with
    | error e => rw [hl] at h; simp at h
    | ok col =>
      rw [hl] at h
      cases hr : attr_columns rows rest with
      | error e => rw [hr] at h; simp at h
      | ok t2 =>
        rw [hr] at h
        simp only [Except.ok.injEq] at h
        rw [← h]
        have h2 := ih t2 hr
        simp only [tableKeys] at h2 ⊢
        simp [h2]

/-- The node attribute loop materializes exactly the catalog keys that
survive the hover gate (`hover` true keeps everything, `hover` false
keeps only the colouring attribute), in catalog order. -/
theorem node_attr_cols_keys (g : Graph) (hover : Bool) (nc : String)
    (ord : List ℕ) :
    ∀ cat t, node_attr_cols g hover nc ord cat = .ok t →
      tableKeys t = cat.filter fun a => hover || decide (a = nc) := by
  intro cat
  induction cat with
  | nil =>
    intro t h
    unfold node_attr_cols at h
    simp only [Except.ok.injEq] at h
    rw [← h]
    rfl
  | cons a rest ih =>
    intro t h
    unfold node_attr_cols at h
    by_cases hgate : hover = false ∧ a ≠ nc
    · rw [if_pos hgate] at h
      have hpred : (hover || decide (a = nc)) = false := by
        rw [hgate.1]
        simp [hgate.2]
      simp only [List.filter_cons, hpred]
      exact ih t h
    · rw [if_neg hgate] at h
      have hpred : (hover || decide (a = nc)) = true := by
        rcases Decidable.not_and_iff_or_not.mp hgate with h1 | h2
        · have hh : hover = true := by
            cases hover
            · exact absurd rfl h1
            · rfl
          simp [hh]
        · simp [Decidable.not_not.mp h2]
      cases hl : node_column g a ord with
      | error e => rw [hl] at h; simp at h
      | ok col =>
        rw [hl] at h
        cases hr : node_attr_cols g hover nc ord rest with
        | error e => rw [hr] at h; simp at h
        | ok t2 =>
          rw [hr] at h
          simp only [Except.ok.injEq] at h
          rw [← h]
          simp only [List.filter_cons, hpred]
          have h2 := ih t2 hr
          simp only [tableKeys] at h2 ⊢
          simp [h2]

/-- A node column lookup succeeds when every listed node exists and
carries the attribute. -/
theorem node_column_ok (g : Graph) (attr : String) :
    ∀ ord : List ℕ,
      (∀ n ∈ ord, ∃ a, nodeAttrsOf g n = some a ∧ ∃ v, attrLookup a attr = some v) →
      ∃ c, node_column g attr ord = .ok c := by
  intro ord
  induction ord with
  | nil => exact fun _ => ⟨[], rfl⟩
  | cons n ns ih =>
    intro hall
    obtain ⟨a, ha, v, hv⟩ := hall n (List.mem_cons_self n ns)
    obtain ⟨c, hc⟩ := ih fun m hm => hall m (List.mem_cons_of_mem n hm)
    refine ⟨v :: c, ?_⟩
    simp [node_column, ha, hv, hc]

/-- The node attribute loop succeeds when every node listed in the
iteration order carries every catalog attribute. -/
theorem node_attr_cols_ok (g : Graph) (hover : Bool) (nc : String)
    (ord : List ℕ) :
    ∀ cat,
      (∀ attr ∈ cat, ∀ n ∈ ord,
        ∃ a, nodeAttrsOf g n = some a ∧ ∃ v, attrLookup a attr = some v) →
      ∃ t, node_attr_cols g hover nc ord cat = .ok t := by
  intro cat
  induction cat with
  | nil => exact fun _ => ⟨[], rfl⟩
  | cons a rest ih =>
    intro hall
    obtain ⟨t2, ht2⟩ := ih fun x hx => hall x (List.mem_cons_of_mem a hx)
    by_cases hgate : hover = false ∧ a ≠ nc
    · refine ⟨t2, ?_⟩
      unfold node_attr_cols
      rw [if_pos hgate]
      exact ht2
    · obtain ⟨c, hc⟩ := node_column_ok g a ord (hall a (List.mem_cons_self a rest))
      refine ⟨(a, c) :: t2, ?_⟩
      unfold node_attr_cols
      rw [if_neg hgate, hc, ht2]

/-- Unfolding equation for the non-bipartite branch of `render_nodes`. -/
theorem render_nodes_nonbip_eq (S : Solvers) (g : Graph)
    (coords : List NodeCoord) (lv0set lv1set : List ℕ)
    (nc np : String) (mc : Int) (hover : Bool) (cols0 : Table)
    (hnb : bipartiteFlag g ≠ 1)
    (hcols : node_attr_cols g hover nc (coords.map NodeCoord.name)
      (node_attributes_lv0 g) = .ok cols0) :
    render_nodes S g coords lv0set lv1set nc np mc hover =
      .ok ⟨(resolve_color S (node_attributes_lv0 g)
              (nonbip_base coords ++ cols0) nc np mc).1,
           none,
           (resolve_color S (node_attributes_lv0 g)
              (nonbip_base coords ++ cols0) nc np mc).2,
           none⟩ := by
  unfold render_nodes
  rw [if_neg hnb, hcols]

/-- Unfolding equation for the bipartite branch of `render_nodes`. -/
theorem render_nodes_bip_eq (S : Solvers) (g : Graph)
    (coords : List NodeCoord) (lv0set lv1set : List ℕ)
    (nc np : String) (mc : Int) (hover : Bool) (cols0 cols1 : Table)
    (hb : bipartiteFlag g = 1)
    (h0 : node_attr_cols g hover nc lv0set (node_attributes_lv0 g) = .ok cols0)
    (h1 : node_attr_cols g hover nc lv1set (node_attributes_lv1 g) = .ok cols1) :
    render_nodes S g coords lv0set lv1set nc np mc hover =
      .ok ⟨(resolve_color S (node_attributes_lv0 g)
              (bip_base (coords.filter fun c => c.name ∈ lv0set) ++ cols0)
              nc np mc).1,
           some (resolve_color S (node_attributes_lv1 g)
              (bip_base (coords.filter fun c => c.name ∉ lv0set) ++ cols1)
              nc np mc).1,
           (resolve_color S (node_attributes_lv1 g)
              (bip_base (coords.filter fun c => c.name ∉ lv0set) ++ cols1)
              nc np mc).2,
           some (resolve_color S (node_attributes_lv1 g)
              (bip_base (coords.filter fun c => c.name ∉ lv0set) ++ cols1)
              nc np mc).2⟩ := by
  unfold render_nodes
  rw [if_pos hb, h0, h1]

/-- Membership in the keys of a resolved table, for keys other than the
synthetic `_colormap`, coincides with membership in the input table. -/
theorem mem_resolve_keys_iff (S : Solvers) (cat : List String) (tbl : Table)
    (req pal : String) (mc : Int) (k : String) (hk : k ≠ "_colormap") :
    (k ∈ tableKeys (resolve_color S cat tbl req pal mc).1 ↔ k ∈ tableKeys tbl) := by
  unfold resolve_color
  split
  · simp [tableKeys, hk]
  · exact Iff.rfl

/-- **C6.**  In the non-bipartite branch, if `node_color` names a catalog
attribute the assembled node table carries a `_colormap` column and the
glyph colour key (used for both fill and line colour) is `_colormap`;
if it matches no catalog attribute, no `_colormap` column is created and
the glyph colour key is the literal string itself. -/
theorem c6_nonbip_color_key_substitution (S : Solvers) (g : Graph)
    (coords : List NodeCoord) (lv0set lv1set : List ℕ)
    (nodeColor nodePalette : String) (mc : Int) (hover : Bool)
    (hnb : bipartiteFlag g ≠ 1) (hcm : "_colormap" ∉ node_attributes_lv0 g)
    (r : NodeRender)
    (hok : render_nodes S g coords lv0set lv1set nodeColor nodePalette mc hover
      = .ok r) :
    (nodeColor ∈ node_attributes_lv0 g →
      "_colormap" ∈ tableKeys r.tableLv0 ∧ r.glyphColorLv0 = "_colormap") ∧
    (nodeColor ∉ node_attributes_lv0 g →
      "_colormap" ∉ tableKeys r.tableLv0 ∧ r.glyphColorLv0 = nodeColor) := by
  cases hcols : node_attr_cols g hover nodeColor (coords.map NodeCoord.name)
      (node_attributes_lv0 g) with
  | error e =>
    unfold render_nodes at hok
    rw [if_neg hnb, hcols] at hok
    exact Except.noConfusion hok
  | ok cols0 =>
    rw [render_nodes_nonbip_eq S g coords lv0set lv1set nodeColor nodePalette
      mc hover cols0 hnb hcols] at hok
    injection hok with hok
    subst hok
    constructor
    · intro hmem
      unfold resolve_color
      rw [if_pos hmem]
      constructor
      · simp [tableKeys]
      · rfl
    · intro hmem
      unfold resolve_color
      rw [if_neg hmem]
      refine ⟨?_, rfl⟩
      intro hin
      simp only [tableKeys, List.map_append, List.mem_append] at hin
      rcases hin with hin | hin
      · exact absurd hin (by simp [nonbip_base])
      · have hkeys := node_attr_cols_keys g hover nodeColor
          (coords.map NodeCoord.name) (node_attributes_lv0 g) cols0 hcols
        have : "_colormap" ∈ tableKeys cols0 := by
          simpa [tableKeys] using hin
        rw [hkeys] at this
        exact hcm (List.mem_of_mem_filter this)

/-- Witness for `c6_nonbip_color_key_substitution` at a concrete
non-bipartite graph, evaluated in both branches of the substitution
rule. -/
theorem c6_nonbip_color_key_substitution_witness :
    ((("a" : String) ∈ node_attributes_lv0 gHom →
      "_colormap" ∈ tableKeys rC6a.tableLv0 ∧ rC6a.glyphColorLv0 = "_colormap") ∧
     (("a" : String) ∉ node_attributes_lv0 gHom →
      "_colormap" ∉ tableKeys rC6a.tableLv0 ∧ rC6a.glyphColorLv0 = "a")) ∧
    ((("teal" : String) ∈ node_attributes_lv0 gHom →
      "_colormap" ∈ tableKeys rC6b.tableLv0 ∧ rC6b.glyphColorLv0 = "_colormap") ∧
     (("teal" : String) ∉ node_attributes_lv0 gHom →
      "_colormap" ∉ tableKeys rC6b.tableLv0 ∧ rC6b.glyphColorLv0 = "teal")) :=
  ⟨c6_nonbip_color_key_substitution S0 gHom coordsC3 [] [] "a" "Category20"
      (-1) false (by decide) (by decide) rC6a rfl,
   c6_nonbip_color_key_substitution S0 gHom coordsC3 [] [] "teal" "Category20"
      (-1) false (by decide) (by decide) rC6b rfl⟩

/-- Keys of a table concatenation. -/
theorem tableKeys_append (t1 t2 : Table) :
    tableKeys (t1 ++ t2) = tableKeys t1 ++ tableKeys t2 := by
  simp [tableKeys]

/-- Colour resolution only ever adds a column, so existing keys remain. -/
theorem mem_resolve_keys_of_mem (S : Solvers) (cat : List String)
    (tbl : Table) (req pal : String) (mc : Int) (k : String)
    (hk : k ∈ tableKeys tbl) :
    k ∈ tableKeys (resolve_color S cat tbl req pal mc).1 := by
  unfold resolve_color
  split
  · simp only [tableKeys_append, List.mem_append]
    exact Or.inl hk
  · exact hk

/-- **C9.**  With hover enabled on a bipartite graph, the node tooltip
descriptors of both partitions reference the identity column `@_node`,
while both assembled partition tables store node identity under the key
`names` and (as long as no node attribute is itself called `_node`)
contain no `_node` column: the hover identity descriptor points at a
column absent from both partition tables. -/
theorem c9_bipartite_hover_node_key_mismatch (S : Solvers) (g : Graph)
    (coords : List NodeCoord) (lv0set lv1set : List ℕ)
    (nodeColor nodePalette : String) (mc : Int)
    (hb : bipartiteFlag g = 1)
    (h0 : "_node" ∉ node_attributes_lv0 g)
    (h1 : "_node" ∉ node_attributes_lv1 g)
    (r : NodeRender) (t1 : Table)
    (hok : render_nodes S g coords lv0set lv1set nodeColor nodePalette mc true
      = .ok r)
    (ht1 : r.tableLv1 = some t1) :
    ("node", "@_node") ∈ node_tooltips (node_attributes_lv0 g) ∧
    ("node", "@_node") ∈ node_tooltips (node_attributes_lv1 g) ∧
    "names" ∈ tableKeys r.tableLv0 ∧ "_node" ∉ tableKeys r.tableLv0 ∧
    "names" ∈ tableKeys t1 ∧ "_node" ∉ tableKeys t1 := by
  cases hc0 : node_attr_cols g true nodeColor lv0set (node_attributes_lv0 g) with
  | error e =>
    unfold render_nodes at hok
    rw [if_pos hb, hc0] at hok
    exact Except.noConfusion hok
  | ok cols0 =>
  cases hc1 : node_attr_cols g true nodeColor lv1set (node_attributes_lv1 g) with
  | error e =>
    unfold render_nodes at hok
    rw [if_pos hb, hc0, hc1] at hok
    exact Except.noConfusion hok
  | ok cols1 =>
    rw [render_nodes_bip_eq S g coords lv0set lv1set nodeColor nodePalette mc
      true cols0 cols1 hb hc0 hc1] at hok
    injection hok with hok
    subst hok
    have hkeys0 := node_attr_cols_keys g true nodeColor lv0set
      (node_attributes_lv0 g) cols0 hc0
    have hkeys1 := node_attr_cols_keys g true nodeColor lv1set
      (node_attributes_lv1 g) cols1 hc1
    have hf0 : tableKeys cols0 = node_attributes_lv0 g := by
      rw [hkeys0]; simp
    have hf1 : tableKeys cols1 = node_attributes_lv1 g := by
      rw [hkeys1]; simp
    have ht1e := Option.some.inj ht1
    refine ⟨by simp [node_tooltips], by simp [node_tooltips], ?_, ?_, ?_, ?_⟩
    · refine (mem_resolve_keys_iff S (node_attributes_lv0 g) _ nodeColor
        nodePalette mc "names" (by decide)).mpr ?_
      simp [tableKeys_append, bip_base, tableKeys]
    · intro hin
      have hin2 := (mem_resolve_keys_iff S (node_attributes_lv0 g) _ nodeColor
        nodePalette mc "_node" (by decide)).mp hin
      rw [tableKeys_append, List.mem_append] at hin2
      rcases hin2 with h | h
      · exact absurd h (by simp [bip_base, tableKeys])
      · rw [hf0] at h
        exact h0 h
    · rw [← ht1e]
      refine (mem_resolve_keys_iff S (node_attributes_lv1 g) _ nodeColor
        nodePalette mc "names" (by decide)).mpr ?_
      simp [tableKeys_append, bip_base, tableKeys]
    · rw [← ht1e]
      intro hin
      have hin2 := (mem_resolve_keys_iff S (node_attributes_lv1 g) _ nodeColor
        nodePalette mc "_node" (by decide)).mp hin
      rw [tableKeys_append, List.mem_append] at hin2
      rcases hin2 with h | h
      · exact absurd h (by simp [bip_base, tableKeys])
      · rw [hf1] at h
        exact h1 h

/-- Witness for `c9_bipartite_hover_node_key_mismatch` on the concrete
bipartite fixture `gC2`. -/
theorem c9_bipartite_hover_node_key_mismatch_witness :
    ("node", "@_node") ∈ node_tooltips (node_attributes_lv0 gC2) ∧
    ("node", "@_node") ∈ node_tooltips (node_attributes_lv1 gC2) ∧
    "names" ∈ tableKeys rC9.tableLv0 ∧ "_node" ∉ tableKeys rC9.tableLv0 ∧
    "names" ∈ tableKeys tC9 ∧ "_node" ∉ tableKeys tC9 :=
  c9_bipartite_hover_node_key_mismatch S0 gC2 coordsC2 [0, 1] [2]
    "firebrick" "Category20" (-1) rfl (by decide) (by decide) rC9 tC9 rfl rfl

/-- The alpha step only ever adds a column, so existing keys remain. -/
theorem mem_alpha_step_keys_of_mem (S : Solvers) (g : Graph) (tbl : Table)
    (ck : String) (ea : Cell) (mc : Int) (k : String)
    (hk : k ∈ tableKeys tbl) :
    k ∈ tableKeys (edge_alpha_step S g tbl ck ea mc).1 := by
  unfold edge_alpha_step
  cases ea with
  | str sa =>
    dsimp only
    by_cases hsa : sa ∈ edge_attributes g
    · rw [if_pos hsa]
      show k ∈ tableKeys
        (tbl ++ [("_edge_alpha", S.cmap "numeric" mc ((tbl.lookup sa).getD []))])
      rw [tableKeys_append]
      exact List.mem_append.mpr (Or.inl hk)
    · rw [if_neg hsa]
      exact hk
  | num q => exact hk
  | bool b => exact hk
  | pair a b => exact hk
  | id n => exact hk

/-- **C10.**  The edge table does not depend on `hover_edges` (the flag
only gates hover-tool attachment), and every catalog edge attribute is
always materialized as a column; the hover-disabled optimization exists
only on the node side: with `hover_nodes` false a catalog attribute other
than the colouring one is not materialized, with `hover_nodes` true every
catalog attribute is. -/
theorem c10_edge_columns_not_hover_gated (S : Solvers) (g : Graph)
    (lay : Layout) (ec ep : String) (ea : Cell) (mc : Int) (he1 he2 : Bool)
    (coords : List NodeCoord) (lv0set lv1set : List ℕ) (nc np : String) :
    ((render_edges_fig S g lay ec ep ea mc he1).map EdgeFigure.table =
      (render_edges_fig S g lay ec ep ea mc he2).map EdgeFigure.table) ∧
    (∀ t ck ak, render_edges S g lay ec ep ea mc = .ok (t, ck, ak) →
      ∀ attr ∈ edge_attributes g, attr ∈ tableKeys t) ∧
    (∀ r, bipartiteFlag g ≠ 1 →
      render_nodes S g coords lv0set lv1set nc np mc false = .ok r →
      ∀ attr ∈ node_attributes_lv0 g, attr ≠ nc → attr ≠ "_colormap" →
        attr ∉ tableKeys (nonbip_base coords) →
        attr ∉ tableKeys r.tableLv0) ∧
    (∀ r, bipartiteFlag g ≠ 1 →
      render_nodes S g coords lv0set lv1set nc np mc true = .ok r →
      ∀ attr ∈ node_attributes_lv0 g, attr ∈ tableKeys r.tableLv0) := by
  refine ⟨?_, ?_, ?_, ?_⟩
  · cases hre : render_edges S g lay ec ep ea mc with
    | error e => simp [render_edges_fig, hre]
    | ok v =>
      obtain ⟨t, ck, ak⟩ := v
      simp [render_edges_fig, hre, Except.map]
  · intro t ck ak hok attr hattr
    cases hxy : gen_edge_coordinates lay g.edges with
    | error e =>
      unfold render_edges at hok
      rw [hxy] at hok
      exact Except.noConfusion hok
    | ok xy =>
      obtain ⟨xs, ys⟩ := xy
      cases hcols : attr_columns (g.edges.map GEdge.attrs) (edge_attributes g) with
      | error e =>
        unfold render_edges at hok
        rw [hxy, hcols] at hok
        exact Except.noConfusion hok
      | ok cols =>
        have hok2 : (Except.ok (edge_alpha_step S g
            (resolve_color S (edge_attributes g) (edge_base g xs ys ++ cols)
              ec ep mc).1
            (resolve_color S (edge_attributes g) (edge_base g xs ys ++ cols)
              ec ep mc).2 ea mc) : Except PyErr (Table × String × Cell))
            = Except.ok (t, ck, ak) := by
          rw [← hok]
          unfold render_edges
          rw [hxy, hcols]
        injection hok2 with hok2
        have h1 := congrArg Prod.fst hok2
        simp only at h1
        rw [← h1]
        refine mem_alpha_step_keys_of_mem S g _ _ ea mc attr ?_
        refine mem_resolve_keys_of_mem S (edge_attributes g) _ ec ep mc attr ?_
        rw [tableKeys_append, List.mem_append]
        refine Or.inr ?_
        rw [attr_columns_keys (g.edges.map GEdge.attrs) (edge_attributes g)
          cols hcols]
        exact hattr
  · intro r hnb hok attr hattr hanc hacm habase
    cases hcols : node_attr_cols g false nc (coords.map NodeCoord.name)
        (node_attributes_lv0 g) with
    | error e =>
      unfold render_nodes at hok
      rw [if_neg hnb, hcols] at hok
      exact Except.noConfusion hok
    | ok cols0 =>
      rw [render_nodes_nonbip_eq S g coords lv0set lv1set nc np mc false cols0
        hnb hcols] at hok
      injection hok with hok
      subst hok
      intro hin
      have hin2 := (mem_resolve_keys_iff S (node_attributes_lv0 g) _ nc np mc
        attr hacm).mp hin
      rw [tableKeys_append, List.mem_append] at hin2
      rcases hin2 with h | h
      · exact habase h
      · rw [node_attr_cols_keys g false nc (coords.map NodeCoord.name)
          (node_attributes_lv0 g) cols0 hcols] at h
        have := List.of_mem_filter h
        simp at this
        exact hanc this
  · intro r hnb hok attr hattr
    cases hcols : node_attr_cols g true nc (coords.map NodeCoord.name)
        (node_attributes_lv0 g) with
    | error e =>
      unfold render_nodes at hok
      rw [if_neg hnb, hcols] at hok
      exact Except.noConfusion hok
    | ok cols0 =>
      rw [render_nodes_nonbip_eq S g coords lv0set lv1set nc np mc true cols0
        hnb hcols] at hok
      injection hok with hok
      subst hok
      refine mem_resolve_keys_of_mem S (node_attributes_lv0 g) _ nc np mc attr ?_
      rw [tableKeys_append, List.mem_append]
      refine Or.inr ?_
      rw [node_attr_cols_keys g true nc (coords.map NodeCoord.name)
        (node_attributes_lv0 g) cols0 hcols]
      simpa using hattr

/-- Witness for `c10_edge_columns_not_hover_gated` on the triangle
fixture `gC10`: the catalog edge attribute "w" is a column of the edge
table with hover disabled everywhere, the node attribute "a" is skipped
with hover off and materialized with hover on. -/
theorem c10_edge_columns_not_hover_gated_witness :
    "w" ∈ tableKeys tC10 ∧
    "a" ∉ tableKeys rC10f.tableLv0 ∧
    "a" ∈ tableKeys rC10t.tableLv0 := by
  have h := c10_edge_columns_not_hover_gated S0 gC10 layC10 "navy" "viridis"
    (Cell.num (mkRat 3 10)) (-1) false true coordsC10 [] [] "firebrick"
    "Category20"
  refine ⟨?_, ?_, ?_⟩
  · exact h.2.1 tC10 "navy" (Cell.num (mkRat 3 10)) rfl "w" (by decide)
  · exact h.2.2.1 rC10f (by decide) rfl "a" (by decide) (by decide) (by decide)
      (by decide)
  · exact h.2.2.2 rC10t (by decide) rfl "a" (by decide)

/-- **C7** (counterexample).  A zero-edge, two-node graph on which `draw`
with default options nevertheless raises: the node attribute "a" is
absent on node 1, so the node table materialization raises KeyError even
though the edge-side handling is graceful. -/
theorem c7_zero_edges_draw_can_raise :
    gC7x.edges = [] ∧ gC7x.nodes ≠ [] ∧
    draw_default S0 gC7x [] [] = .error .keyError :=
  ⟨rfl, by decide, rfl⟩

/-- **C7** (amended).  For every graph with zero edges and at least one
node whose node attribute mappings are homogeneous (every catalog key
present on every node), `draw` with default options succeeds: the edge
table is exactly the two empty `xs`/`ys` columns (0 rows) and the `_u`/
`_v` identity columns are skipped gracefully. -/
theorem c7_zero_edges_draw_ok_of_homogeneous (S : Solvers) (g : Graph)
    (lv0set lv1set : List ℕ)
    (hE : g.edges = []) (hN : g.nodes ≠ [])
    (hsol : (S.spring g (mkRat 4 5)).map Prod.fst = nodeIds g)
    (hhom : ∀ n ∈ g.nodes, ∀ attr ∈ node_attributes_lv0 g,
      ∃ v, attrLookup n.attrs attr = some v) :
    ∃ r, draw_default S g lv0set lv1set = .ok r ∧
      r.edgeTable = [("xs", []), ("ys", [])] ∧
      "_u" ∉ tableKeys r.edgeTable ∧ "_v" ∉ tableKeys r.edgeTable := by
  obtain ⟨ns, es⟩ := g
  have hE2 : es = [] := hE
  subst hE2
  have hN2 : ns ≠ [] := hN
  have hflag : bipartiteFlag ⟨ns, []⟩ ≠ 1 := by
    unfold bipartiteFlag
    rw [if_neg]
    · decide
    · rintro ⟨-, hp⟩
      simp [numberOfEdges] at hp
  have hlay : layout_fn S ⟨ns, []⟩ none (mkRat 4 5)
      = .ok (S.spring ⟨ns, []⟩ (mkRat 4 5)) := by
    unfold layout_fn
    rw [if_neg (by decide : ¬ truthyLayout none = true), if_neg hflag]
    have hlpos : (0 : ℤ) < ((ns.length : ℤ)) := by
      exact_mod_cast List.length_pos.mpr hN2
    have hp : (0 : ℤ) < spring_pnum ⟨ns, []⟩ (mkRat 4 5) := by
      unfold spring_pnum
      have h4 : (mkRat 4 5).num = 4 := rfl
      rw [h4]
      exact mul_pos hlpos (by norm_num)
    rw [if_neg (by omega), if_neg (by omega)]
  have hre : render_edges S ⟨ns, []⟩ (S.spring ⟨ns, []⟩ (mkRat 4 5)) "navy"
      "viridis" (Cell.num (mkRat 3 10)) (-1)
      = .ok ([("xs", []), ("ys", [])], "navy", Cell.num (mkRat 3 10)) := rfl
  cases hlay2 : S.spring ⟨ns, []⟩ (mkRat 4 5) with
  | nil =>
    exfalso
    rw [hlay2] at hsol
    cases hns : ns with
    | nil => exact hN2 hns
    | cons a l =>
      rw [hns] at hsol
      simp [nodeIds] at hsol
  | cons p ps =>
    rw [hlay2] at hlay hsol hre
    have hgnc : gen_node_coordinates (p :: ps)
        = .ok ((p :: ps).map fun q => ⟨q.1, q.2.1, q.2.2⟩) := rfl
    have hord : (((p :: ps).map fun q => (⟨q.1, q.2.1, q.2.2⟩ : NodeCoord)).map
        NodeCoord.name) = nodeIds ⟨ns, []⟩ := by
      rw [List.map_map]
      exact hsol
    have hhyp : ∀ attr ∈ node_attributes_lv0 ⟨ns, []⟩,
        ∀ n ∈ (((p :: ps).map fun q => (⟨q.1, q.2.1, q.2.2⟩ : NodeCoord)).map
          NodeCoord.name),
        ∃ a, nodeAttrsOf ⟨ns, []⟩ n = some a ∧
          ∃ v, attrLookup a attr = some v := by
      intro attr hattr n hn
      rw [hord] at hn
      obtain ⟨m, hm, hmid⟩ := List.mem_map.mp hn
      have hfind : (ns.find? fun x => x.id == n).isSome := by
        rw [List.find?_isSome]
        exact ⟨m, hm, by simp [hmid]⟩
      obtain ⟨m2, hm2⟩ := Option.isSome_iff_exists.mp hfind
      refine ⟨m2.attrs, ?_, ?_⟩
      · unfold nodeAttrsOf
        rw [hm2]
        rfl
      · exact hhom m2 (List.mem_of_find?_eq_some hm2) attr hattr
    obtain ⟨cols0, hcols⟩ := node_attr_cols_ok ⟨ns, []⟩ true "firebrick"
      (((p :: ps).map fun q => (⟨q.1, q.2.1, q.2.2⟩ : NodeCoord)).map
        NodeCoord.name)
      (node_attributes_lv0 ⟨ns, []⟩)
      (fun attr ha n hnn => hhyp attr ha n hnn)
    have hrn := render_nodes_nonbip_eq S ⟨ns, []⟩
      ((p :: ps).map fun q => (⟨q.1, q.2.1, q.2.2⟩ : NodeCoord))
      lv0set lv1set "firebrick" "Category20" (-1) true cols0 hflag hcols
    refine ⟨⟨[("xs", []), ("ys", [])], "navy", Cell.num (mkRat 3 10),
      ⟨(resolve_color S (node_attributes_lv0 ⟨ns, []⟩)
          (nonbip_base ((p :: ps).map fun q =>
            (⟨q.1, q.2.1, q.2.2⟩ : NodeCoord)) ++ cols0)
          "firebrick" "Category20" (-1)).1, none,
       (resolve_color S (node_attributes_lv0 ⟨ns, []⟩)
          (nonbip_base ((p :: ps).map fun q =>
            (⟨q.1, q.2.1, q.2.2⟩ : NodeCoord)) ++ cols0)
          "firebrick" "Category20" (-1)).2, none⟩⟩, ?_, rfl, ?_, ?_⟩
    · unfold draw_default draw_fn
      rw [hlay]
      dsimp only
      rw [hre]
      dsimp only
      rw [hgnc]
      dsimp only
      rw [hrn]
    · show "_u" ∉ tableKeys [("xs", []), ("ys", [])]
      decide
    · show "_v" ∉ tableKeys [("xs", []), ("ys", [])]
      decide

/-- Witness for `c7_zero_edges_draw_ok_of_homogeneous` on a concrete
one-node, zero-edge graph. -/
theorem c7_zero_edges_draw_ok_of_homogeneous_witness :
    ∃ r, draw_default S0 gOne [] [] = .ok r ∧
      r.edgeTable = [("xs", []), ("ys", [])] ∧
      "_u" ∉ tableKeys r.edgeTable ∧ "_v" ∉ tableKeys r.edgeTable :=
  c7_zero_edges_draw_ok_of_homogeneous S0 gOne [] [] rfl (by decide) rfl
    (by
      intro n hn attr ha
      rw [show node_attributes_lv0 gOne = [] from rfl] at ha
      exact absurd ha (List.not_mem_nil attr))

end Bokeh